import Mathlib

/-!
Shallow embedding of the Finbuddy cash reconciliation subsystem.

The definitions below mirror, clause by clause, the source functions of
backend/app/services/cash_reconciliation_service.py and the nightly job in
backend/app/services/tasks.py.  Python floats are idealized as rationals,
Python datetimes as rational day counts, optional or nullable fields as
Option, and exceptions as Option-valued results (none models a raise).
Text is modelled as lists of characters; Python str.strip, str.lower,
substring tests and str.title are reimplemented on those lists.
-/

set_option maxHeartbeats 1000000

namespace Finbuddy

/- ### Text primitives -/

/-- Python str.strip: drop leading and trailing whitespace. -/
def strip (l : List Char) : List Char :=
  ((l.dropWhile Char.isWhitespace).reverse.dropWhile Char.isWhitespace).reverse

/-- Python str.lower restricted to ASCII, the only case the data exercises. -/
def lowerStr (l : List Char) : List Char := l.map Char.toLower

/-- Whether the first list is an initial segment of the second. -/
def listStarts : List Char → List Char → Bool
  | [], _ => true
  | _ :: _, [] => false
  | p :: ps, c :: cs => p == c && listStarts ps cs

/-- Python substring test: needle in hay. -/
def hasSub (needle : List Char) : List Char → Bool
  | [] => listStarts needle []
  | c :: t => listStarts needle (c :: t) || hasSub needle t

/-- Helper for titleCase: the Bool says whether the next letter starts a word. -/
def titleGo : Bool → List Char → List Char
  | _, [] => []
  | up, c :: cs =>
    if c.isAlpha then (if up then c.toUpper else c.toLower) :: titleGo false cs
    else c :: titleGo true cs

/-- Python str.title restricted to ASCII letters. -/
def titleCase (l : List Char) : List Char := titleGo true l

/- ### Data model (backend/app/models/transaction.py) -/

inductive TransactionType where
  | credit
  | debit
deriving DecidableEq

/-- The JSON tags column: a null, a list of strings, or a degenerate
non-container value (whose membership test the source catches and turns
into False). -/
inductive TagsField where
  | null
  | arr (tags : List (List Char))
  | nonContainer
deriving DecidableEq

structure Transaction where
  amount : Option ℚ
  transaction_type : TransactionType
  tags : TagsField
  subcategory : Option (List Char)
  merchant_category : Option (List Char)
  description : Option (List Char)
  merchant_name : Option (List Char)
  transaction_date : Option ℚ
deriving DecidableEq

/- ### Classifier (cash_reconciliation_service.py lines 23-67) -/

def _CASH_WITHDRAW_KEYWORDS : List (List Char) :=
  ["atm".toList, "cash withdrawal".toList, "withdrawal".toList,
   "withdraw".toList, "cash withdraw".toList]

/-- Source _normalize_text: (value or "").strip().lower(). -/
def _normalize_text (value : Option (List Char)) : List Char :=
  lowerStr (strip (value.getD []))

/-- Source _has_tag: tag in (txn.tags or []), TypeError caught as False. -/
def _has_tag (txn : Transaction) (tag : List Char) : Bool :=
  match txn.tags with
  | TagsField.arr l => l.contains tag
  | _ => false

/-- Source _is_cash_withdrawal. -/
def _is_cash_withdrawal (txn : Transaction) : Bool :=
  if txn.transaction_type ≠ TransactionType.debit then false
  else if _has_tag txn ("cash_withdrawal".toList) then true
  else
    let text := _normalize_text txn.description ++ [' '] ++
      _normalize_text txn.merchant_name ++ [' '] ++
      _normalize_text txn.merchant_category
    _CASH_WITHDRAW_KEYWORDS.any (fun k => hasSub k text)

/-- Source _is_cash_spend. -/
def _is_cash_spend (txn : Transaction) : Bool :=
  if txn.transaction_type ≠ TransactionType.debit then false
  else if _has_tag txn ("cash".toList) || _has_tag txn ("cash_spend".toList) then true
  else
    let text := _normalize_text txn.description ++ [' '] ++
      _normalize_text txn.subcategory
    hasSub ("cash".toList) text

/- ### Rounding: Python round, which rounds halves to even -/

/-- Python round to an integer: nearest integer, halves to the even one. -/
def rhe (x : ℚ) : ℤ :=
  if x - ⌊x⌋ < 1/2 then ⌊x⌋
  else if (1 : ℚ)/2 < x - ⌊x⌋ then ⌊x⌋ + 1
  else if ⌊x⌋ % 2 = 0 then ⌊x⌋ else ⌊x⌋ + 1

/- ### Cash position (compute_cash_position, lines 82-131) -/

structure CashPosition where
  user_id : List Char
  lookback_days : ℤ
  last_withdrawal_date : Option ℚ
  days_since_withdrawal : Option ℤ
  total_withdrawn : ℚ
  tracked_cash_spend : ℚ
  estimated_untracked_cash : ℚ
  eligible_for_nudge : Bool
deriving DecidableEq

/-- Python sum over transaction amounts: a missing amount raises, which is
modelled as none. -/
def sumAmounts : List Transaction → Option ℚ
  | [] => some 0
  | t :: ts =>
    match t.amount, sumAmounts ts with
    | some a, some s => some (a + s)
    | _, _ => none

/-- timedelta(now - d).days: whole days, floored toward minus infinity. -/
def daysBetween (now d : ℚ) : ℤ := ⌊now - d⌋

/-- Core of compute_cash_position, applied to the already fetched (window
filtered, date descending) transaction list.  none models a raise. -/
def compute_cash_position (user_id : List Char) (txns : List Transaction)
    (now : ℚ) (lookback_days : ℤ) (min_days_since_withdrawal : ℤ) :
    Option CashPosition :=
  let withdrawals := txns.filter _is_cash_withdrawal
  let cash_spends := txns.filter _is_cash_spend
  let last_withdrawal_date : Option ℚ :=
    withdrawals.head?.bind Transaction.transaction_date
  let days_since_withdrawal : Option ℤ :=
    last_withdrawal_date.map (fun d => max 0 (daysBetween now d))
  match sumAmounts withdrawals, sumAmounts cash_spends with
  | some tw, some ts =>
    some
      { user_id := user_id
        lookback_days := lookback_days
        last_withdrawal_date := last_withdrawal_date
        days_since_withdrawal := days_since_withdrawal
        total_withdrawn := tw
        tracked_cash_spend := ts
        estimated_untracked_cash := max 0 (tw - ts)
        eligible_for_nudge :=
          decide (0 < max 0 (tw - ts)) &&
            match days_since_withdrawal with
            | some d => decide (min_days_since_withdrawal ≤ d)
            | none => false }
  | _, _ => none

/-- The SQL where clause transaction_date >= start: a NULL date never
compares true, so such rows are excluded. -/
def windowTxns (txns : List Transaction) (start : ℚ) : List Transaction :=
  txns.filter (fun t =>
    match t.transaction_date with
    | some d => decide (start ≤ d)
    | none => false)

/-- Insertion step of an insertion sort with a Bool comparator. -/
def insertBy {α : Type} (le : α → α → Bool) (a : α) : List α → List α
  | [] => [a]
  | b :: l => if le a b then a :: b :: l else b :: insertBy le a l

/-- Insertion sort with a Bool comparator. -/
def sortBy {α : Type} (le : α → α → Bool) : List α → List α
  | [] => []
  | a :: l => insertBy le a (sortBy le l)

def dateKey (t : Transaction) : ℚ := t.transaction_date.getD 0

/-- The order_by(transaction_date.desc()) clause of both fetches. -/
def sortByDateDesc (l : List Transaction) : List Transaction :=
  sortBy (fun a b => decide (dateKey b ≤ dateKey a)) l

/-- compute_cash_position including its fetch: window filter on the stored
transactions of the user, then date descending order. -/
def computeCashPositionForUser (user_id : List Char) (txns : List Transaction)
    (now : ℚ) (lookback_days : ℤ) (min_days_since_withdrawal : ℤ) :
    Option CashPosition :=
  compute_cash_position user_id
    (sortByDateDesc (windowTxns txns (now - lookback_days))) now
    lookback_days min_days_since_withdrawal

/- ### Suggestion engine (suggest_likely_cash_expenses, lines 133-238) -/

structure CashCheckSuggestion where
  label : List Char
  subcategory : List Char
  typical_amount : ℤ
  amount_range : ℤ × ℤ
  probability : ℚ
deriving DecidableEq

/-- The fixed fallback suggestions of the empty history branch. -/
def DEFAULT_SUGGESTIONS : List CashCheckSuggestion :=
  [ { label := "Groceries".toList, subcategory := "groceries".toList,
      typical_amount := 500, amount_range := (300, 700), probability := 34/100 },
    { label := "Food".toList, subcategory := "food".toList,
      typical_amount := 200, amount_range := (120, 350), probability := 28/100 },
    { label := "Transport".toList, subcategory := "transport".toList,
      typical_amount := 100, amount_range := (50, 200), probability := 22/100 },
    { label := "Misc".toList, subcategory := "misc".toList,
      typical_amount := 150, amount_range := (80, 300), probability := 16/100 } ]

/-- One entry of the per subcategory aggregation dictionaries, which the
source keeps in insertion order. -/
structure Bucket where
  key : List Char
  amounts : List ℚ
  weight : ℚ
deriving DecidableEq

/-- datetime.weekday on a rational day count (Monday is 0; day 0 of the
model calendar is a Thursday, as in the Unix epoch). -/
def weekday (d : ℚ) : ℤ := (⌊d⌋ + 3) % 7

/-- Bucket key: subcategory, else merchant_category, else other, each
stripped and lowercased with falsy fallback. -/
def bucketKey (t : Transaction) : List Char :=
  let s := lowerStr (strip (t.subcategory.getD []))
  if s ≠ [] then s
  else
    let m := lowerStr (strip (t.merchant_category.getD []))
    if m ≠ [] then m else "other".toList

/-- Per transaction weight: 1.6 on the same weekday as the target, else 1. -/
def txnWeight (t : Transaction) (target_weekday : ℤ) : ℚ :=
  if weekday (dateKey t) = target_weekday then 8/5 else 1

/-- One loop iteration over both dictionaries: append the amount and add the
weight under the bucket key, inserting the key at the end on first sight. -/
def addTxn (bs : List Bucket) (k : List Char) (a w : ℚ) : List Bucket :=
  match bs with
  | [] => [{ key := k, amounts := [a], weight := w }]
  | b :: rest =>
    if b.key = k then
      { key := b.key, amounts := b.amounts ++ [a], weight := b.weight + w } :: rest
    else b :: addTxn rest k a w

/-- The aggregation loop of suggest_likely_cash_expenses. -/
def buildBuckets (txns : List Transaction) (target_weekday : ℤ) : List Bucket :=
  txns.foldl
    (fun bs t => addTxn bs (bucketKey t) (t.amount.getD 0) (txnWeight t target_weekday))
    []

/-- amounts[max(0, min(idx, len(amounts) - 1))]. -/
def clampIdx (i : ℤ) (n : ℕ) : ℕ := (max 0 (min i ((n : ℤ) - 1))).toNat

/-- The inner _percentile closure over the sorted amounts. -/
def percentileOf (amounts : List ℚ) (p : ℚ) : ℚ :=
  if amounts.length = 1 then amounts.headD 0
  else amounts.getD (clampIdx (rhe (((amounts.length : ℚ) - 1) * p)) amounts.length) 0

/-- The suggestion built for one ranked bucket before renormalization. -/
def mkSuggestion (b : Bucket) (total_weight : ℚ) : CashCheckSuggestion :=
  let amounts := sortBy (fun x y => decide (x ≤ y)) b.amounts
  let p25 := percentileOf amounts (1/4)
  let p50 := percentileOf amounts (1/2)
  let p75 := percentileOf amounts (3/4)
  let low := max 0 (rhe p25)
  { label := titleCase (b.key.map (fun c => if c = '_' then ' ' else c))
    subcategory := b.key
    typical_amount := rhe p50
    amount_range := (low, max low (rhe p75))
    probability := b.weight / total_weight }

/-- A transaction the aggregation loop can process without raising. -/
def wellFormed (t : Transaction) : Bool :=
  t.amount.isSome && t.transaction_date.isSome

/-- The non-fallback branch of suggest_likely_cash_expenses, applied to the
cash spend transactions of the history window. -/
def suggestCore (txns : List Transaction) (target_weekday : ℤ) (limit : ℕ) :
    List CashCheckSuggestion :=
  let buckets := buildBuckets txns target_weekday
  let total0 := (buckets.map Bucket.weight).sum
  let total_weight := if total0 = 0 then 1 else total0
  let ranked := sortBy (fun x y => decide (y.weight ≤ x.weight)) buckets
  let top := ranked.take (max limit 10)
  let suggestions := top.filterMap
    (fun b => if b.amounts = [] then none else some (mkSuggestion b total_weight))
  let trunc := suggestions.take limit
  let prob_sum0 := (trunc.map CashCheckSuggestion.probability).sum
  let prob_sum := if prob_sum0 = 0 then 1 else prob_sum0
  trunc.map (fun s => { s with probability := s.probability / prob_sum })

/-- suggest_likely_cash_expenses on the fetched DEBIT transactions of the
window.  A malformed transaction in the retained cash spends makes the loop
raise, modelled as none. -/
def suggest_likely_cash_expenses (fetched : List Transaction) (target_date : ℚ)
    (limit : ℕ) : Option (List CashCheckSuggestion) :=
  let txns := fetched.filter _is_cash_spend
  if txns = [] then some (DEFAULT_SUGGESTIONS.take limit)
  else if txns.all wellFormed then
    some (suggestCore txns (weekday target_date) limit)
  else none

/-- suggest_likely_cash_expenses including its fetch: DEBIT rows of the user
within the history window, date descending. -/
def suggestForUser (txns : List Transaction) (target_date : ℚ)
    (history_days : ℤ) (limit : ℕ) : Option (List CashCheckSuggestion) :=
  suggest_likely_cash_expenses
    (sortByDateDesc (windowTxns
      (txns.filter (fun t => decide (t.transaction_type = TransactionType.debit)))
      (target_date - history_days)))
    target_date limit

/- ### Nightly job (tasks.py nightly_cash_check, lines 260-358) -/

structure NotificationRec where
  user_id : List Char
  ntype : List Char
  cash_position : CashPosition
  suggestions : List CashCheckSuggestion
  is_read : Bool
deriving DecidableEq

structure UserRecord where
  id : List Char
  txns : List Transaction
deriving DecidableEq

structure JobResult where
  success : Bool
  notifications_created : Option ℕ
  checked_at : Option ℚ
  error : Option (List Char)
  notifications : List NotificationRec
deriving DecidableEq

/-- The currency threshold of the batch gate. -/
def NUDGE_THRESHOLD : ℚ := 1000

/-- The body of the per user loop: none when the user is skipped, whether by
the gate or by a caught exception, some notification otherwise. -/
def processUser (u : UserRecord) (now : ℚ) : Option NotificationRec :=
  match computeCashPositionForUser u.id u.txns now 30 3 with
  | none => none
  | some pos =>
    if pos.eligible_for_nudge && decide (NUDGE_THRESHOLD ≤ pos.estimated_untracked_cash) then
      match suggestForUser u.txns now 90 4 with
      | none => none
      | some sugg =>
        some { user_id := u.id, ntype := "cash_check".toList,
               cash_position := pos, suggestions := sugg, is_read := false }
    else none

/-- One step of the counting loop. -/
def nightlyStep (now : ℚ) (acc : ℕ × List NotificationRec) (u : UserRecord) :
    ℕ × List NotificationRec :=
  match processUser u now with
  | none => acc
  | some n => (acc.1 + 1, acc.2 ++ [n])

/-- nightly_cash_check: the user fetch result comes in as an Except, an
error there aborts the whole run, otherwise the per user loop runs with
per user fault isolation and the run reports success. -/
def nightly_cash_check (users_fetch : Except (List Char) (List UserRecord))
    (now : ℚ) : JobResult :=
  match users_fetch with
  | Except.error e =>
    { success := false, notifications_created := none, checked_at := none,
      error := some e, notifications := [] }
  | Except.ok users =>
    let r := users.foldl (nightlyStep now) (0, [])
    { success := true, notifications_created := some r.1,
      checked_at := some now, error := none, notifications := r.2 }

/-- Whether the batch gate passes for a user and the notification build
succeeds, stated against the service outputs rather than the loop. -/
def qualifiesB (u : UserRecord) (now : ℚ) : Bool :=
  match computeCashPositionForUser u.id u.txns now 30 3 with
  | some pos =>
    pos.eligible_for_nudge &&
      decide (NUDGE_THRESHOLD ≤ pos.estimated_untracked_cash) &&
      (suggestForUser u.txns now 90 4).isSome
  | none => false

/-- Per claim C5, the spec side predicate: DEBIT and (tagged cash or
cash_spend, or the lowercase concatenation of description and subcategory
contains cash).  This follows the claim words, with literal concatenation. -/
def specIsCashSpend (txn : Transaction) : Prop :=
  txn.transaction_type = TransactionType.debit ∧
    (_has_tag txn ("cash".toList) = true ∨
     _has_tag txn ("cash_spend".toList) = true ∨
     hasSub ("cash".toList)
       (lowerStr (txn.description.getD [] ++ txn.subcategory.getD [])) = true)

instance (txn : Transaction) : Decidable (specIsCashSpend txn) := by
  unfold specIsCashSpend
  infer_instance

/- ### Infrastructure lemmas: insertion sort -/

theorem perm_insertBy {α : Type} (le : α → α → Bool) (a : α) :
    ∀ l : List α, List.Perm (insertBy le a l) (a :: l) := by
  intro l
  induction l with
  | nil => simp [insertBy]
  | cons b t ih =>
    unfold insertBy
    cases hab : le a b
    · simp only [Bool.false_eq_true, if_false]
      exact (ih.cons b).trans (List.Perm.swap a b t)
    · simp

theorem perm_sortBy {α : Type} (le : α → α → Bool) :
    ∀ l : List α, List.Perm (sortBy le l) l := by
  intro l
  induction l with
  | nil => simp [sortBy]
  | cons a t ih =>
    unfold sortBy
    exact (perm_insertBy le a (sortBy le t)).trans (ih.cons a)

theorem mem_insertBy {α : Type} {le : α → α → Bool} {a x : α} {l : List α} :
    x ∈ insertBy le a l ↔ x = a ∨ x ∈ l := by
  rw [(perm_insertBy le a l).mem_iff, List.mem_cons]

theorem mem_sortBy {α : Type} {le : α → α → Bool} {x : α} {l : List α} :
    x ∈ sortBy le l ↔ x ∈ l := (perm_sortBy le l).mem_iff

theorem sorted_insertBy_q (a : ℚ) (l : List ℚ)
    (h : l.Sorted (· ≤ ·)) :
    (insertBy (fun x y => decide (x ≤ y)) a l).Sorted (· ≤ ·) := by
  induction l with
  | nil => simp [insertBy]
  | cons b t ih =>
    rw [List.sorted_cons] at h
    unfold insertBy
    cases hab : decide (a ≤ b)
    · have hba : ¬ a ≤ b := of_decide_eq_false hab
      simp only [Bool.false_eq_true, if_false]
      rw [List.sorted_cons]
      constructor
      · intro y hy
        rcases mem_insertBy.mp hy with rfl | hy
        · exact le_of_lt (lt_of_not_le hba)
        · exact h.1 y hy
      · exact ih h.2
    · have hab : a ≤ b := of_decide_eq_true hab
      simp only [if_true]
      rw [List.sorted_cons]
      constructor
      · intro y hy
        rcases List.mem_cons.mp hy with rfl | hy
        · exact hab
        · exact le_trans hab (h.1 y hy)
      · rw [List.sorted_cons]
        exact h

theorem sorted_sortBy_q (l : List ℚ) :
    (sortBy (fun x y => decide (x ≤ y)) l).Sorted (· ≤ ·) := by
  induction l with
  | nil => simp [sortBy]
  | cons a t ih => exact sorted_insertBy_q a _ ih

theorem sorted_getD_mono {l : List ℚ} (h : l.Sorted (· ≤ ·)) {i j : ℕ}
    (hij : i ≤ j) (hj : j < l.length) : l.getD i 0 ≤ l.getD j 0 := by
  have hi : i < l.length := lt_of_le_of_lt hij hj
  rw [List.getD_eq_get l 0 hi, List.getD_eq_get l 0 hj]
  rcases Nat.lt_or_ge i j with hlt | hge
  · exact List.Sorted.rel_get_of_lt h hlt
  · have hij2 : i = j := le_antisymm hij hge
    subst hij2
    exact le_refl _

/- ### Infrastructure lemmas: sums of optional amounts -/

theorem sumAmounts_eq_sum :
    ∀ {l : List Transaction} {s : ℚ}, sumAmounts l = some s →
      s = (l.map (fun t => t.amount.getD 0)).sum := by
  intro l
  induction l with
  | nil =>
    intro s h
    simp [sumAmounts] at h
    simp [← h]
  | cons t ts ih =>
    intro s h
    unfold sumAmounts at h
    cases ha : t.amount with
    | none => rw [ha] at h; exact absurd h (by simp)
    | some a =>
      rw [ha] at h
      cases hs : sumAmounts ts with
      | none => rw [hs] at h; exact absurd h (by simp)
      | some s0 =>
        rw [hs] at h
        simp only [Option.some.injEq] at h
        subst h
        simp [ha, ← ih hs]

theorem sumAmounts_isSome :
    ∀ {l : List Transaction}, (∀ t ∈ l, t.amount.isSome = true) →
      (sumAmounts l).isSome = true := by
  intro l
  induction l with
  | nil => intro _; simp [sumAmounts]
  | cons t ts ih =>
    intro h
    have ht : t.amount.isSome = true := h t (List.mem_cons_self t ts)
    have hts := ih (fun x hx => h x (List.mem_cons_of_mem t hx))
    unfold sumAmounts
    cases ha : t.amount with
    | none => rw [ha] at ht; simp at ht
    | some a =>
      cases hs : sumAmounts ts with
      | none => rw [hs] at hts; simp at hts
      | some s0 => simp

/- ### Infrastructure lemmas: Python round (half to even) -/

theorem floor_le_rhe (x : ℚ) : ⌊x⌋ ≤ rhe x := by
  unfold rhe
  split_ifs <;> omega

theorem rhe_le_floor_add_one (x : ℚ) : rhe x ≤ ⌊x⌋ + 1 := by
  unfold rhe
  split_ifs <;> omega

theorem rhe_mono {x y : ℚ} (h : x ≤ y) : rhe x ≤ rhe y := by
  rcases lt_or_le ⌊x⌋ ⌊y⌋ with hf | hf
  · calc rhe x ≤ ⌊x⌋ + 1 := rhe_le_floor_add_one x
      _ ≤ ⌊y⌋ := by omega
      _ ≤ rhe y := floor_le_rhe y
  · have hfe : ⌊x⌋ = ⌊y⌋ := le_antisymm (Int.floor_le_floor h) hf
    have hfq : ((⌊x⌋ : ℚ)) = ((⌊y⌋ : ℚ)) := by exact_mod_cast hfe
    unfold rhe
    split_ifs <;> first | omega | linarith

theorem rhe_zero : rhe 0 = 0 := by
  have h0 : ⌊(0 : ℚ)⌋ = 0 := Int.floor_zero
  unfold rhe
  rw [h0]
  norm_num

theorem rhe_nonneg {x : ℚ} (h : 0 ≤ x) : 0 ≤ rhe x := by
  calc (0 : ℤ) = rhe 0 := rhe_zero.symm
    _ ≤ rhe x := rhe_mono h

/- ### Infrastructure lemmas: buckets -/

/-- Invariant carried by every bucket of the aggregation loop: every
accumulated amount satisfies P, the weight is at least one, and the amount
list is not empty. -/
def BucketInv (P : ℚ → Prop) (b : Bucket) : Prop :=
  (∀ x ∈ b.amounts, P x) ∧ 1 ≤ b.weight ∧ b.amounts ≠ []

theorem one_le_txnWeight (t : Transaction) (wd : ℤ) : 1 ≤ txnWeight t wd := by
  unfold txnWeight
  split_ifs <;> norm_num

theorem addTxn_ne_nil (bs : List Bucket) (k : List Char) (a w : ℚ) :
    addTxn bs k a w ≠ [] := by
  cases bs with
  | nil => simp [addTxn]
  | cons b rest =>
    unfold addTxn
    split_ifs <;> simp

theorem addTxn_inv {P : ℚ → Prop} (k : List Char) (a w : ℚ) (ha : P a)
    (hw : 1 ≤ w) :
    ∀ bs : List Bucket, (∀ b ∈ bs, BucketInv P b) →
      ∀ b ∈ addTxn bs k a w, BucketInv P b := by
  intro bs
  induction bs with
  | nil =>
    intro _ b hb
    simp only [addTxn, List.mem_singleton] at hb
    subst hb
    refine ⟨?_, hw, by simp⟩
    intro x hx
    simp only [List.mem_singleton] at hx
    subst hx
    exact ha
  | cons b0 rest ih =>
    intro hbs b hb
    unfold addTxn at hb
    by_cases hk : b0.key = k
    · rw [if_pos hk] at hb
      rcases List.mem_cons.mp hb with rfl | hb
      · have h0 := hbs b0 (List.mem_cons_self b0 rest)
        refine ⟨?_, ?_, by simp⟩
        · intro x hx
          rcases List.mem_append.mp hx with hx | hx
          · exact h0.1 x hx
          · simp only [List.mem_singleton] at hx
            subst hx
            exact ha
        · have hw0 : 0 ≤ w := le_trans zero_le_one hw
          have := h0.2.1
          simp only []
          linarith
      · exact hbs b (List.mem_cons_of_mem b0 hb)
    · rw [if_neg hk] at hb
      rcases List.mem_cons.mp hb with rfl | hb
      · exact hbs b (List.mem_cons_self b rest)
      · exact ih (fun x hx => hbs x (List.mem_cons_of_mem b0 hx)) b hb

theorem foldl_addTxn_inv {P : ℚ → Prop} (wd : ℤ) :
    ∀ (txns : List Transaction) (acc : List Bucket),
      (∀ t ∈ txns, P (t.amount.getD 0)) → (∀ b ∈ acc, BucketInv P b) →
      ∀ b ∈ txns.foldl
        (fun bs t => addTxn bs (bucketKey t) (t.amount.getD 0) (txnWeight t wd))
        acc, BucketInv P b := by
  intro txns
  induction txns with
  | nil => intro acc _ hacc b hb; exact hacc b hb
  | cons t ts ih =>
    intro acc ht hacc b hb
    rw [List.foldl_cons] at hb
    exact ih _ (fun x hx => ht x (List.mem_cons_of_mem t hx))
      (addTxn_inv _ _ _ (ht t (List.mem_cons_self t ts)) (one_le_txnWeight t wd)
        acc hacc) b hb

theorem buildBuckets_inv {P : ℚ → Prop} {txns : List Transaction} (wd : ℤ)
    (h : ∀ t ∈ txns, P (t.amount.getD 0)) :
    ∀ b ∈ buildBuckets txns wd, BucketInv P b := by
  unfold buildBuckets
  exact foldl_addTxn_inv wd txns [] h (by simp)

theorem foldl_addTxn_ne_nil (wd : ℤ) :
    ∀ (txns : List Transaction) (acc : List Bucket), acc ≠ [] →
      txns.foldl
        (fun bs t => addTxn bs (bucketKey t) (t.amount.getD 0) (txnWeight t wd))
        acc ≠ [] := by
  intro txns
  induction txns with
  | nil => intro acc h; simpa using h
  | cons t ts ih =>
    intro acc _
    rw [List.foldl_cons]
    exact ih _ (addTxn_ne_nil acc _ _ _)

theorem buildBuckets_ne_nil {txns : List Transaction} (wd : ℤ)
    (h : txns ≠ []) : buildBuckets txns wd ≠ [] := by
  cases txns with
  | nil => exact absurd rfl h
  | cons t ts =>
    unfold buildBuckets
    rw [List.foldl_cons]
    exact foldl_addTxn_ne_nil wd ts _ (addTxn_ne_nil [] _ _ _)

theorem weights_sum_pos (bs : List Bucket) (hne : bs ≠ [])
    (h : ∀ b ∈ bs, 1 ≤ b.weight) : 0 < (bs.map Bucket.weight).sum := by
  cases bs with
  | nil => exact absurd rfl hne
  | cons b rest =>
    simp only [List.map_cons, List.sum_cons]
    have h1 : 1 ≤ b.weight := h b (List.mem_cons_self b rest)
    have h2 : 0 ≤ (rest.map Bucket.weight).sum := by
      apply List.sum_nonneg
      intro x hx
      rcases List.mem_map.mp hx with ⟨c, hc, rfl⟩
      exact le_trans zero_le_one (h c (List.mem_cons_of_mem b hc))
    linarith

/- ### Infrastructure lemmas: suggestion construction -/

theorem sortBy_ne_nil {α : Type} {le : α → α → Bool} {l : List α}
    (h : l ≠ []) : sortBy le l ≠ [] := by
  intro hs
  have hp : List.Perm l (sortBy le l) := (perm_sortBy le l).symm
  rw [hs] at hp
  exact h hp.eq_nil

theorem take_ne_nil_of {α : Type} {l : List α} {n : ℕ} (hl : l ≠ [])
    (hn : 1 ≤ n) : l.take n ≠ [] := by
  cases l with
  | nil => exact absurd rfl hl
  | cons a t =>
    cases n with
    | zero => omega
    | succ m => simp

theorem filterMap_mk_eq_map (tw : ℚ) :
    ∀ l : List Bucket, (∀ b ∈ l, b.amounts ≠ []) →
      l.filterMap
        (fun b => if b.amounts = [] then none else some (mkSuggestion b tw)) =
      l.map (fun b => mkSuggestion b tw) := by
  intro l
  induction l with
  | nil => intro _; simp
  | cons b rest ih =>
    intro h
    rw [List.filterMap_cons, List.map_cons]
    rw [if_neg (h b (List.mem_cons_self b rest))]
    rw [ih (fun x hx => h x (List.mem_cons_of_mem b hx))]

theorem sum_map_div (l : List ℚ) (s : ℚ) :
    (l.map (fun p => p / s)).sum = l.sum / s := by
  induction l with
  | nil => simp
  | cons a t ih => simp [ih, add_div]

theorem map_prob_update (l : List CashCheckSuggestion) (c : ℚ) :
    (l.map (fun s => { s with probability := s.probability / c })).map
        CashCheckSuggestion.probability =
      (l.map CashCheckSuggestion.probability).map (fun p => p / c) := by
  induction l with
  | nil => simp
  | cons a t ih => simp [ih]

theorem clampIdx_lt (i : ℤ) (n : ℕ) (hn : 1 ≤ n) : clampIdx i n < n := by
  unfold clampIdx
  omega

theorem clampIdx_mono {i j : ℤ} (h : i ≤ j) (n : ℕ) :
    clampIdx i n ≤ clampIdx j n := by
  unfold clampIdx
  omega

theorem percentileOf_mono {amounts : List ℚ} (hs : amounts.Sorted (· ≤ ·))
    (hne : amounts ≠ []) {p q : ℚ} (hp : 0 ≤ p) (hpq : p ≤ q) :
    percentileOf amounts p ≤ percentileOf amounts q := by
  have hlen : 1 ≤ amounts.length := List.length_pos.mpr hne
  unfold percentileOf
  by_cases h1 : amounts.length = 1
  · simp [h1]
  · rw [if_neg h1, if_neg h1]
    apply sorted_getD_mono hs
    · apply clampIdx_mono
      apply rhe_mono
      apply mul_le_mul_of_nonneg_left hpq
      have : (1 : ℚ) ≤ (amounts.length : ℚ) := by exact_mod_cast hlen
      linarith
    · exact clampIdx_lt _ _ hlen

theorem percentileOf_nonneg {amounts : List ℚ}
    (h : ∀ a ∈ amounts, 0 ≤ a) (p : ℚ) : 0 ≤ percentileOf amounts p := by
  unfold percentileOf
  split_ifs
  · cases amounts with
    | nil => simp
    | cons a t => exact h a (List.mem_cons_self a t)
  · by_cases hlt : clampIdx (rhe (((amounts.length : ℚ) - 1) * p)) amounts.length <
        amounts.length
    · rw [List.getD_eq_get amounts 0 hlt]
      exact h _ (amounts.get_mem _ _)
    · rw [List.getD_eq_default amounts 0 (le_of_not_lt hlt)]

theorem mkSuggestion_range {b : Bucket} {tw : ℚ} (hne : b.amounts ≠ [])
    (h : ∀ a ∈ b.amounts, 0 ≤ a) :
    (mkSuggestion b tw).amount_range.1 ≤ (mkSuggestion b tw).typical_amount ∧
    (mkSuggestion b tw).typical_amount ≤ (mkSuggestion b tw).amount_range.2 := by
  have hs : (sortBy (fun x y => decide (x ≤ y)) b.amounts).Sorted (· ≤ ·) :=
    sorted_sortBy_q b.amounts
  have hne2 : sortBy (fun x y => decide (x ≤ y)) b.amounts ≠ [] :=
    sortBy_ne_nil hne
  have hmem : ∀ a ∈ sortBy (fun x y => decide (x ≤ y)) b.amounts, 0 ≤ a :=
    fun a ha => h a (mem_sortBy.mp ha)
  have h2550 := percentileOf_mono hs hne2
    (by norm_num : (0 : ℚ) ≤ 1/4) (by norm_num : (1 : ℚ)/4 ≤ 1/2)
  have h5075 := percentileOf_mono hs hne2
    (by norm_num : (0 : ℚ) ≤ 1/2) (by norm_num : (1 : ℚ)/2 ≤ 3/4)
  have h50n : 0 ≤ percentileOf (sortBy (fun x y => decide (x ≤ y)) b.amounts) (1/2) :=
    percentileOf_nonneg hmem _
  unfold mkSuggestion
  refine ⟨max_le (rhe_nonneg h50n) (rhe_mono h2550), ?_⟩
  exact le_trans (rhe_mono h5075) (le_max_right _ _)

theorem mkSuggestion_prob (b : Bucket) (tw : ℚ) :
    (mkSuggestion b tw).probability = b.weight / tw := rfl

theorem suggestCore_props (txns : List Transaction) (wd : ℤ) (limit : ℕ)
    (hne : txns ≠ []) (hlim : 1 ≤ limit) :
    suggestCore txns wd limit ≠ [] ∧
    ((suggestCore txns wd limit).map CashCheckSuggestion.probability).sum = 1 := by
  have hinv : ∀ b ∈ buildBuckets txns wd, BucketInv (fun _ => True) b :=
    buildBuckets_inv wd (fun _ _ => trivial)
  have hbne : buildBuckets txns wd ≠ [] := buildBuckets_ne_nil wd hne
  have hwts : ∀ b ∈ buildBuckets txns wd, 1 ≤ b.weight := fun b hb => (hinv b hb).2.1
  have htpos : 0 < ((buildBuckets txns wd).map Bucket.weight).sum :=
    weights_sum_pos _ hbne hwts
  simp only [suggestCore]
  set buckets := buildBuckets txns wd with hbdef
  set tw := (buckets.map Bucket.weight).sum with htwdef
  rw [if_neg htpos.ne']
  set ranked := sortBy (fun x y => decide (y.weight ≤ x.weight)) buckets with hrdef
  set top := ranked.take (max limit 10) with htopdef
  have htopsub : ∀ b ∈ top, b ∈ buckets := fun b hb2 =>
    mem_sortBy.mp (List.take_subset _ _ hb2)
  have htopne : top ≠ [] :=
    take_ne_nil_of (sortBy_ne_nil hbne)
      (le_trans (by norm_num) (le_max_right limit 10))
  have htopamt : ∀ b ∈ top, b.amounts ≠ [] :=
    fun b hb2 => (hinv b (htopsub b hb2)).2.2
  rw [filterMap_mk_eq_map tw top htopamt]
  set trunc := (top.map (fun b => mkSuggestion b tw)).take limit with htruncdef
  have htruncne : trunc ≠ [] := by
    apply take_ne_nil_of _ hlim
    simp only [ne_eq, List.map_eq_nil_iff]
    exact htopne
  have hprobpos : ∀ s ∈ trunc, 0 < s.probability := by
    intro s hs
    have hs2 : s ∈ top.map (fun b => mkSuggestion b tw) := List.take_subset _ _ hs
    rcases List.mem_map.mp hs2 with ⟨b, hbtop, rfl⟩
    rw [mkSuggestion_prob]
    exact div_pos (lt_of_lt_of_le zero_lt_one (hwts b (htopsub b hbtop))) htpos
  set psum := (trunc.map CashCheckSuggestion.probability).sum with hpsumdef
  have hppos : 0 < psum := by
    rw [hpsumdef]
    apply List.sum_pos
    · intro a ha
      rcases List.mem_map.mp ha with ⟨s, hs, rfl⟩
      exact hprobpos s hs
    · simp only [ne_eq, List.map_eq_nil_iff]
      exact htruncne
  rw [if_neg hppos.ne']
  constructor
  · simp only [ne_eq, List.map_eq_nil_iff]
    exact htruncne
  · rw [map_prob_update trunc psum, sum_map_div, div_self hppos.ne']

theorem suggestCore_mem {txns : List Transaction} {wd : ℤ} {limit : ℕ}
    {s : CashCheckSuggestion} (hs : s ∈ suggestCore txns wd limit) :
    ∃ b ∈ buildBuckets txns wd, ∃ tw : ℚ,
      s.typical_amount = (mkSuggestion b tw).typical_amount ∧
      s.amount_range = (mkSuggestion b tw).amount_range := by
  simp only [suggestCore] at hs
  rcases List.mem_map.mp hs with ⟨s0, hs0, rfl⟩
  have hs1 := List.take_subset _ _ hs0
  rcases List.mem_filterMap.mp hs1 with ⟨b, hbtop, hguard⟩
  by_cases hbe : b.amounts = []
  · rw [if_pos hbe] at hguard
    exact absurd hguard (by simp)
  · rw [if_neg hbe] at hguard
    have hmk := Option.some.inj hguard
    subst hmk
    exact ⟨b, mem_sortBy.mp (List.take_subset _ _ hbtop),
      (if (List.map Bucket.weight (buildBuckets txns wd)).sum = 0 then 1
       else (List.map Bucket.weight (buildBuckets txns wd)).sum), rfl, rfl⟩

theorem sum_amounts_sortByDateDesc (W : List Transaction) (p : Transaction → Bool) :
    (((sortByDateDesc W).filter p).map (fun t => t.amount.getD 0)).sum =
      ((W.filter p).map (fun t => t.amount.getD 0)).sum := by
  unfold sortByDateDesc
  exact (((perm_sortBy _ W).filter p).map _).sum_eq

/- ### Sample data used by witnesses and counterexamples -/

def uidA : List Char := "u1".toList

def txnA_withdrawal : Transaction :=
  ⟨some 10000, .debit, .arr ["cash_withdrawal".toList], none, none, none, none, some 95⟩

def txnA_spend1 : Transaction :=
  ⟨some 500, .debit, .arr ["cash".toList], some "groceries".toList, none, none, none, some 97⟩

def txnA_spend2 : Transaction :=
  ⟨some 200, .debit, .arr ["cash".toList], some "food".toList, none, none, none, some 98⟩

def txnA_spend3 : Transaction :=
  ⟨some 300, .debit, .arr ["cash".toList], some "groceries".toList, none, none, none, some 99⟩

def txnsA : List Transaction := [txnA_withdrawal, txnA_spend1, txnA_spend2, txnA_spend3]

def posA : CashPosition := ⟨uidA, 30, some 95, some 5, 10000, 1000, 9000, true⟩

/-- A transaction with a missing amount that classifies as a withdrawal. -/
def txnMissingAmount : Transaction :=
  ⟨none, .debit, .arr ["cash_withdrawal".toList], none, none, none, none, some 95⟩

/- ### Claim C1 -/

/-- C1: for every user, lookback window and transaction set, a cash position
returned by compute_cash_position has totalWithdrawn and trackedCashSpend
equal to the amount sums of the transactions classified as cash withdrawals
and cash spends in the window, estimatedUntrackedCash equal to
max(0, totalWithdrawn - trackedCashSpend), and estimatedUntrackedCash ≥ 0. -/
theorem C1_estimated_untracked_formula (uid : List Char)
    (txns : List Transaction) (now : ℚ) (lb mind : ℤ) (pos : CashPosition)
    (h : computeCashPositionForUser uid txns now lb mind = some pos) :
    pos.total_withdrawn =
      (((windowTxns txns (now - lb)).filter _is_cash_withdrawal).map
        (fun t => t.amount.getD 0)).sum ∧
    pos.tracked_cash_spend =
      (((windowTxns txns (now - lb)).filter _is_cash_spend).map
        (fun t => t.amount.getD 0)).sum ∧
    pos.estimated_untracked_cash =
      max 0 (pos.total_withdrawn - pos.tracked_cash_spend) ∧
    0 ≤ pos.estimated_untracked_cash := by
  simp only [computeCashPositionForUser, compute_cash_position] at h
  cases hw : sumAmounts
      ((sortByDateDesc (windowTxns txns (now - lb))).filter _is_cash_withdrawal) with
  | none => rw [hw] at h; simp at h
  | some tw =>
    cases hs : sumAmounts
        ((sortByDateDesc (windowTxns txns (now - lb))).filter _is_cash_spend) with
    | none => rw [hw, hs] at h; simp at h
    | some ts =>
      rw [hw, hs] at h
      simp only [Option.some.injEq] at h
      subst h
      refine ⟨?_, ?_, rfl, le_max_left 0 _⟩
      · rw [sumAmounts_eq_sum hw]
        exact sum_amounts_sortByDateDesc _ _
      · rw [sumAmounts_eq_sum hs]
        exact sum_amounts_sortByDateDesc _ _

/-- Concrete evaluation of the pipeline at the scenario A data. -/
theorem computeA_eval :
    computeCashPositionForUser uidA txnsA 100 30 3 = some posA := by
  norm_num +decide [computeCashPositionForUser, compute_cash_position, windowTxns,
    sortByDateDesc, sortBy, insertBy, dateKey, sumAmounts, _is_cash_withdrawal,
    _is_cash_spend, _has_tag, _normalize_text, strip, lowerStr, hasSub, listStarts,
    _CASH_WITHDRAW_KEYWORDS, daysBetween, uidA, txnsA, txnA_withdrawal, txnA_spend1,
    txnA_spend2, txnA_spend3, posA, List.filter]

/-- C1 witness at the scenario A data. -/
theorem C1_witness :
    computeCashPositionForUser uidA txnsA 100 30 3 = some posA ∧
    (posA.total_withdrawn =
      (((windowTxns txnsA ((100 : ℚ) - 30)).filter _is_cash_withdrawal).map
        (fun t => t.amount.getD 0)).sum ∧
    posA.tracked_cash_spend =
      (((windowTxns txnsA ((100 : ℚ) - 30)).filter _is_cash_spend).map
        (fun t => t.amount.getD 0)).sum ∧
    posA.estimated_untracked_cash =
      max 0 (posA.total_withdrawn - posA.tracked_cash_spend) ∧
    0 ≤ posA.estimated_untracked_cash) :=
  ⟨computeA_eval, C1_estimated_untracked_formula uidA txnsA 100 30 3 posA computeA_eval⟩

/- ### Claim C2 -/

/-- C2: eligible_for_nudge is true exactly when the estimated untracked cash
is positive and days_since_withdrawal is defined and at least the configured
minimum; with no withdrawal in the window, eligible_for_nudge is false and
days_since_withdrawal is undefined. -/
theorem C2_nudge_eligibility (uid : List Char) (txns : List Transaction)
    (now : ℚ) (lb mind : ℤ) (pos : CashPosition)
    (h : computeCashPositionForUser uid txns now lb mind = some pos) :
    (pos.eligible_for_nudge = true ↔
      (0 < pos.estimated_untracked_cash ∧
        ∃ d, pos.days_since_withdrawal = some d ∧ mind ≤ d)) ∧
    ((windowTxns txns (now - lb)).filter _is_cash_withdrawal = [] →
      pos.eligible_for_nudge = false ∧ pos.days_since_withdrawal = none) := by
  simp only [computeCashPositionForUser, compute_cash_position] at h
  cases hw : sumAmounts
      ((sortByDateDesc (windowTxns txns (now - lb))).filter _is_cash_withdrawal) with
  | none => rw [hw] at h; simp at h
  | some tw =>
    cases hs : sumAmounts
        ((sortByDateDesc (windowTxns txns (now - lb))).filter _is_cash_spend) with
    | none => rw [hw, hs] at h; simp at h
    | some ts =>
      rw [hw, hs] at h
      simp only [Option.some.injEq] at h
      subst h
      constructor
      · cases hlast : ((sortByDateDesc (windowTxns txns (now - lb))).filter
            _is_cash_withdrawal).head?.bind Transaction.transaction_date with
        | none => simp [hlast]
        | some d0 => simp [hlast, Bool.and_eq_true, decide_eq_true_eq]
      · intro hwnil
        have hp : List.Perm
            ((sortByDateDesc (windowTxns txns (now - lb))).filter _is_cash_withdrawal)
            ((windowTxns txns (now - lb)).filter _is_cash_withdrawal) := by
          unfold sortByDateDesc
          exact (perm_sortBy _ _).filter _is_cash_withdrawal
        rw [hwnil] at hp
        have hnil := hp.eq_nil
        rw [hnil]
        simp

/-- C2 witness at the scenario A data. -/
theorem C2_witness :
    (posA.eligible_for_nudge = true ↔
      (0 < posA.estimated_untracked_cash ∧
        ∃ d, posA.days_since_withdrawal = some d ∧ (3 : ℤ) ≤ d)) ∧
    ((windowTxns txnsA ((100 : ℚ) - 30)).filter _is_cash_withdrawal = [] →
      posA.eligible_for_nudge = false ∧ posA.days_since_withdrawal = none) :=
  C2_nudge_eligibility uidA txnsA 100 30 3 posA computeA_eval

/- ### Claim C9 -/

/-- C9 counterexample: a transaction with a missing amount that classifies
as a cash withdrawal makes compute_cash_position raise (modelled as none),
so malformed transactions are not excluded from aggregation in general. -/
theorem C9_counterexample :
    computeCashPositionForUser ("u".toList) [txnMissingAmount] 100 30 3 = none := by
  norm_num +decide [computeCashPositionForUser, compute_cash_position, windowTxns,
    sortByDateDesc, sortBy, insertBy, dateKey, sumAmounts, _is_cash_withdrawal,
    _is_cash_spend, _has_tag, _normalize_text, strip, lowerStr, hasSub, listStarts,
    _CASH_WITHDRAW_KEYWORDS, daysBetween, txnMissingAmount, List.filter]

/-- C9 amended: a transaction with a missing transactionDate is excluded by
the window filter (so it contributes zero and causes no raise), and when
every transaction carries an amount the computation returns a position; a
missing amount on a classified transaction, by contrast, raises
(see the counterexample). -/
theorem C9_missing_date_excluded (uid : List Char) (txns : List Transaction)
    (now : ℚ) (lb mind : ℤ) :
    computeCashPositionForUser uid txns now lb mind =
      computeCashPositionForUser uid
        (txns.filter (fun t => t.transaction_date.isSome)) now lb mind ∧
    ((∀ t ∈ txns, t.amount.isSome = true) →
      (computeCashPositionForUser uid txns now lb mind).isSome = true) := by
  constructor
  · have hW : windowTxns (txns.filter (fun t => t.transaction_date.isSome))
        (now - lb) = windowTxns txns (now - lb) := by
      unfold windowTxns
      rw [List.filter_filter]
      apply List.filter_congr
      intro t _
      cases ht : t.transaction_date <;> simp [ht]
    unfold computeCashPositionForUser
    rw [hW]
  · intro hall
    have hmem : ∀ t ∈ sortByDateDesc (windowTxns txns (now - lb)),
        t.amount.isSome = true := by
      intro t ht
      have h1 : t ∈ windowTxns txns (now - lb) := by
        unfold sortByDateDesc at ht
        exact mem_sortBy.mp ht
      have h2 : t ∈ txns := by
        unfold windowTxns at h1
        exact List.filter_subset' _ h1
      exact hall t h2
    have hw := sumAmounts_isSome
      (l := (sortByDateDesc (windowTxns txns (now - lb))).filter _is_cash_withdrawal)
      (fun t ht => hmem t (List.filter_subset' _ ht))
    have hs := sumAmounts_isSome
      (l := (sortByDateDesc (windowTxns txns (now - lb))).filter _is_cash_spend)
      (fun t ht => hmem t (List.filter_subset' _ ht))
    obtain ⟨tw, htw⟩ := Option.isSome_iff_exists.mp hw
    obtain ⟨ts, hts⟩ := Option.isSome_iff_exists.mp hs
    simp only [computeCashPositionForUser, compute_cash_position, htw, hts]
    rfl

/-- C9 witness: on well formed data the computation returns a position. -/
theorem C9_witness :
    (computeCashPositionForUser uidA txnsA 100 30 3).isSome = true :=
  (C9_missing_date_excluded uidA txnsA 100 30 3).2 (by decide)

/- ### Claim C4 -/

/-- C4 counterexample: with no cash spend history and limit 5 the fallback
returns only the 4 fixed defaults, not 5 suggestions. -/
theorem C4_counterexample :
    suggest_likely_cash_expenses [] 0 5 = some DEFAULT_SUGGESTIONS ∧
    DEFAULT_SUGGESTIONS.length = 4 ∧ DEFAULT_SUGGESTIONS.length ≠ 5 := by
  refine ⟨?_, rfl, by decide⟩
  simp only [suggest_likely_cash_expenses]
  rw [if_pos (by rfl)]
  rw [List.take_all_of_le (by decide)]

/-- C4 amended: with no cash spend transactions in the history window the
fallback returns the first min(limit, 4) fixed defaults; at the default
limit 4 that is exactly the 4 fixed default suggestions. -/
theorem C4_default_fallback (fetched : List Transaction) (target : ℚ)
    (limit : ℕ) (h : fetched.filter _is_cash_spend = []) :
    suggest_likely_cash_expenses fetched target limit =
      some (DEFAULT_SUGGESTIONS.take limit) ∧
    (DEFAULT_SUGGESTIONS.take limit).length = min limit 4 ∧
    (limit = 4 → DEFAULT_SUGGESTIONS.take limit = DEFAULT_SUGGESTIONS) := by
  refine ⟨?_, ?_, ?_⟩
  · simp [suggest_likely_cash_expenses, h]
  · rw [List.length_take]
    rfl
  · intro h4
    subst h4
    rfl

/-- C4 witness: at the default limit 4 and empty history the fallback is
exactly the 4 fixed defaults. -/
theorem C4_witness :
    suggest_likely_cash_expenses [] 0 4 = some (DEFAULT_SUGGESTIONS.take 4) ∧
    (DEFAULT_SUGGESTIONS.take 4).length = min 4 4 ∧
    (4 = 4 → DEFAULT_SUGGESTIONS.take 4 = DEFAULT_SUGGESTIONS) :=
  C4_default_fallback [] 0 4 rfl

/- ### Claim C3 -/

/-- C3 counterexample: with no history and limit 1 the returned non-empty
list has probability sum 0.34, outside the 1e-6 tolerance around 1. -/
theorem C3_counterexample :
    suggest_likely_cash_expenses [] 0 1 = some (DEFAULT_SUGGESTIONS.take 1) ∧
    DEFAULT_SUGGESTIONS.take 1 ≠ [] ∧
    ((DEFAULT_SUGGESTIONS.take 1).map CashCheckSuggestion.probability).sum
      = 34/100 ∧
    ¬((1 : ℚ) - 1/1000000 ≤ 34/100) := by
  refine ⟨?_, by simp [DEFAULT_SUGGESTIONS], ?_, by norm_num⟩
  · simp [suggest_likely_cash_expenses]
  · simp [DEFAULT_SUGGESTIONS, List.take]

/-- C3 amended: a returned list is non-empty for limit ≥ 1; its
probabilities sum to exactly 1 on the historical bucket path, and on the
empty history fallback path they sum to 1 whenever limit ≥ 4 (in
particular at the default limit 4), smaller limits truncating the fixed
defaults without renormalization. -/
theorem C3_probability_sum (fetched : List Transaction) (target : ℚ)
    (limit : ℕ) (l : List CashCheckSuggestion) (hlim : 1 ≤ limit)
    (h : suggest_likely_cash_expenses fetched target limit = some l) :
    l ≠ [] ∧
    (fetched.filter _is_cash_spend ≠ [] →
      (l.map CashCheckSuggestion.probability).sum = 1) ∧
    (4 ≤ limit → (l.map CashCheckSuggestion.probability).sum = 1) := by
  simp only [suggest_likely_cash_expenses] at h
  by_cases hf : fetched.filter _is_cash_spend = []
  · rw [if_pos hf] at h
    simp only [Option.some.injEq] at h
    subst h
    refine ⟨take_ne_nil_of (by simp [DEFAULT_SUGGESTIONS]) hlim,
      fun hc => absurd hf hc, ?_⟩
    intro h4
    have hall : DEFAULT_SUGGESTIONS.take limit = DEFAULT_SUGGESTIONS :=
      List.take_all_of_le (le_trans (by decide) h4)
    rw [hall]
    norm_num [DEFAULT_SUGGESTIONS]
  · rw [if_neg hf] at h
    by_cases hwf : (fetched.filter _is_cash_spend).all wellFormed
    · rw [if_pos hwf] at h
      simp only [Option.some.injEq] at h
      subst h
      have hp := suggestCore_props (fetched.filter _is_cash_spend)
        (weekday target) limit hf hlim
      exact ⟨hp.1, fun _ => hp.2, fun _ => hp.2⟩
    · rw [if_neg hwf] at h
      exact absurd h (by simp)

/-- A transaction exercising the historical path of the suggestions. -/
def txnC_spend : Transaction :=
  ⟨some 100, .debit, .arr ["cash".toList], none, none, none, none, some 0⟩

def suggC_head : CashCheckSuggestion :=
  ⟨"Other".toList, "other".toList, 100, (100, 100), 1⟩

def suggC : List CashCheckSuggestion := [suggC_head]

/-- C3 witness: on a one transaction history with limit 1 the historical
path returns one suggestion of probability 1. -/
theorem C3_witness :
    suggest_likely_cash_expenses [txnC_spend] 0 1 = some suggC ∧
    (suggC ≠ [] ∧
      (List.filter _is_cash_spend [txnC_spend] ≠ [] →
        (suggC.map CashCheckSuggestion.probability).sum = 1) ∧
      (4 ≤ 1 → (suggC.map CashCheckSuggestion.probability).sum = 1)) := by
  have h : suggest_likely_cash_expenses [txnC_spend] 0 1 = some suggC := by
    norm_num +decide [suggest_likely_cash_expenses, suggestCore, buildBuckets, addTxn,
      bucketKey, txnWeight, weekday, dateKey, mkSuggestion, percentileOf, clampIdx, rhe,
      sortBy, insertBy, wellFormed, DEFAULT_SUGGESTIONS, titleCase, titleGo, strip,
      lowerStr, _is_cash_spend, _has_tag, _normalize_text, hasSub, listStarts,
      txnC_spend, suggC, suggC_head, List.filter, List.filterMap, List.take, List.all,
      List.foldl]
  exact ⟨h, C3_probability_sum [txnC_spend] 0 1 suggC (le_refl 1) h⟩

/- ### Claim C6 -/

/-- C6: when every transaction amount is nonnegative, every returned
suggestion satisfies low ≤ typicalAmount ≤ high. -/
theorem C6_range_invariant (fetched : List Transaction) (target : ℚ)
    (limit : ℕ) (l : List CashCheckSuggestion)
    (hamt : ∀ t ∈ fetched, ∀ a : ℚ, t.amount = some a → 0 ≤ a)
    (h : suggest_likely_cash_expenses fetched target limit = some l) :
    ∀ s ∈ l, s.amount_range.1 ≤ s.typical_amount ∧
      s.typical_amount ≤ s.amount_range.2 := by
  simp only [suggest_likely_cash_expenses] at h
  by_cases hf : fetched.filter _is_cash_spend = []
  · rw [if_pos hf] at h
    simp only [Option.some.injEq] at h
    subst h
    intro s hs
    have hs2 : s ∈ DEFAULT_SUGGESTIONS := List.take_subset _ _ hs
    simp only [DEFAULT_SUGGESTIONS, List.mem_cons, List.mem_singleton] at hs2
    rcases hs2 with rfl | rfl | rfl | rfl | h0
    · exact ⟨by decide, by decide⟩
    · exact ⟨by decide, by decide⟩
    · exact ⟨by decide, by decide⟩
    · exact ⟨by decide, by decide⟩
    · exact absurd h0 (by simp)
  · rw [if_neg hf] at h
    by_cases hwf : (fetched.filter _is_cash_spend).all wellFormed
    · rw [if_pos hwf] at h
      simp only [Option.some.injEq] at h
      subst h
      intro s hs
      obtain ⟨b, hb, tw, hty, hrg⟩ := suggestCore_mem hs
      have hP : ∀ t ∈ fetched.filter _is_cash_spend, 0 ≤ t.amount.getD 0 := by
        intro t ht
        have hmem := hamt t (List.filter_subset' _ ht)
        cases ha : t.amount with
        | none => simp
        | some a => simpa [ha] using hmem a ha
      have hinv := buildBuckets_inv (weekday target) hP b hb
      rw [hty, hrg]
      exact mkSuggestion_range hinv.2.2 hinv.1
    · rw [if_neg hwf] at h
      exact absurd h (by simp)

/-- C6 witness at the one transaction history. -/
theorem C6_witness :
    suggC_head.amount_range.1 ≤ suggC_head.typical_amount ∧
    suggC_head.typical_amount ≤ suggC_head.amount_range.2 := by
  have hamt : ∀ t ∈ [txnC_spend], ∀ a : ℚ, t.amount = some a → 0 ≤ a := by
    intro t ht a ha
    have ht2 : t = txnC_spend := by simpa using ht
    subst ht2
    have ha2 : (100 : ℚ) = a := by simpa [txnC_spend] using ha
    rw [← ha2]
    norm_num
  have h : suggest_likely_cash_expenses [txnC_spend] 0 1 = some suggC := by
    norm_num +decide [suggest_likely_cash_expenses, suggestCore, buildBuckets, addTxn,
      bucketKey, txnWeight, weekday, dateKey, mkSuggestion, percentileOf, clampIdx, rhe,
      sortBy, insertBy, wellFormed, DEFAULT_SUGGESTIONS, titleCase, titleGo, strip,
      lowerStr, _is_cash_spend, _has_tag, _normalize_text, hasSub, listStarts,
      txnC_spend, suggC, suggC_head, List.filter, List.filterMap, List.take, List.all,
      List.foldl]
  exact C6_range_invariant [txnC_spend] 0 1 suggC hamt h suggC_head
    (by simp [suggC, suggC_head])

/- ### Claim C5 -/

/-- A transaction whose description and subcategory concatenate to cash
only without the space the source inserts between them. -/
def txnCas : Transaction :=
  ⟨some 10, .debit, .null, some "h".toList, none, some "cas".toList, none, some 0⟩

/-- C5 counterexample: with description cas and subcategory h the literal
lowercase concatenation contains cash, but the source joins the normalized
fields with a space and classifies the transaction as not a cash spend. -/
theorem C5_counterexample :
    specIsCashSpend txnCas ∧ _is_cash_spend txnCas = false := by
  constructor
  · decide
  · decide

/-- C5 amended: _is_cash_spend txn is true iff txn is a DEBIT and (its tags
contain cash or cash_spend, or the trimmed lowercase description and
subcategory joined with a single space contain the substring cash). -/
theorem C5_cash_spend_characterization (txn : Transaction) :
    _is_cash_spend txn = true ↔
      (txn.transaction_type = TransactionType.debit ∧
        (_has_tag txn ("cash".toList) = true ∨
         _has_tag txn ("cash_spend".toList) = true ∨
         hasSub ("cash".toList)
           (_normalize_text txn.description ++ [' '] ++
             _normalize_text txn.subcategory) = true)) := by
  unfold _is_cash_spend
  cases httype : txn.transaction_type with
  | credit => simp [httype]
  | debit =>
    simp only [httype, ne_eq, not_true_eq_false, if_false]
    cases h1 : _has_tag txn ("cash".toList) <;>
      cases h2 : _has_tag txn ("cash_spend".toList) <;>
        simp [h1, h2]

/- ### Claim C10 -/

/-- The degenerate field cleanup the classifiers implicitly perform: a null
or non container tags value acts as the empty tag list, a missing text
field as the empty string. -/
def normalizeDegenerate (t : Transaction) : Transaction :=
  { t with
    tags := match t.tags with
      | TagsField.arr l => TagsField.arr l
      | _ => TagsField.arr []
    description := some (t.description.getD [])
    merchant_name := some (t.merchant_name.getD [])
    merchant_category := some (t.merchant_category.getD [])
    subcategory := some (t.subcategory.getD []) }

/-- C10: both classifier predicates are total functions of the transaction
and treat degenerate fields as empty: a null or non container tags field
acts as the empty tag set, a missing text field as the empty string. -/
theorem C10_degenerate_fields (txn : Transaction) :
    _is_cash_withdrawal txn = _is_cash_withdrawal (normalizeDegenerate txn) ∧
    _is_cash_spend txn = _is_cash_spend (normalizeDegenerate txn) := by
  have htag : ∀ tag, _has_tag (normalizeDegenerate txn) tag = _has_tag txn tag := by
    intro tag
    unfold _has_tag normalizeDegenerate
    cases txn.tags <;> simp
  have hnorm : ∀ v : Option (List Char),
      _normalize_text (some (v.getD [])) = _normalize_text v := by
    intro v
    cases v <;> rfl
  have hty : (normalizeDegenerate txn).transaction_type = txn.transaction_type := rfl
  have hde : (normalizeDegenerate txn).description = some (txn.description.getD []) := rfl
  have hmn : (normalizeDegenerate txn).merchant_name = some (txn.merchant_name.getD []) := rfl
  have hmc : (normalizeDegenerate txn).merchant_category =
      some (txn.merchant_category.getD []) := rfl
  have hsc : (normalizeDegenerate txn).subcategory = some (txn.subcategory.getD []) := rfl
  constructor
  · unfold _is_cash_withdrawal
    simp only [hty, htag, hde, hmn, hmc, hnorm]
  · unfold _is_cash_spend
    simp only [hty, htag, hde, hsc, hnorm]

/- ### Claims C7 and C8: the nightly job -/

theorem processUser_isSome_eq (u : UserRecord) (now : ℚ) :
    (processUser u now).isSome = qualifiesB u now := by
  unfold processUser qualifiesB
  cases hc : computeCashPositionForUser u.id u.txns now 30 3 with
  | none => rfl
  | some pos =>
    dsimp only
    by_cases hg : (pos.eligible_for_nudge &&
        decide (NUDGE_THRESHOLD ≤ pos.estimated_untracked_cash)) = true
    · rw [if_pos hg]
      cases hs : suggestForUser u.txns now 90 4 with
      | none => simp [hg, hs]
      | some sg => simp [hg, hs]
    · rw [if_neg hg]
      have hg2 : (pos.eligible_for_nudge &&
          decide (NUDGE_THRESHOLD ≤ pos.estimated_untracked_cash)) = false :=
        Bool.eq_false_iff.mpr hg
      simp [hg2]

theorem nightly_foldl_count (now : ℚ) :
    ∀ (users : List UserRecord) (acc : ℕ × List NotificationRec),
      (users.foldl (nightlyStep now) acc).1 =
        acc.1 + users.countP (fun u => (processUser u now).isSome) ∧
      (users.foldl (nightlyStep now) acc).2 =
        acc.2 ++ users.filterMap (fun u => processUser u now) := by
  intro users
  induction users with
  | nil => intro acc; simp
  | cons u us ih =>
    intro acc
    rw [List.foldl_cons]
    cases hp : processUser u now with
    | none =>
      have hstep : nightlyStep now acc u = acc := by
        unfold nightlyStep
        rw [hp]
      constructor
      · rw [hstep, (ih acc).1, List.countP_cons]
        simp [hp]
      · rw [hstep, (ih acc).2, List.filterMap_cons, hp]
    | some n =>
      have hstep : nightlyStep now acc u = (acc.1 + 1, acc.2 ++ [n]) := by
        unfold nightlyStep
        rw [hp]
      constructor
      · rw [hstep, (ih _).1, List.countP_cons]
        simp [hp]
        omega
      · rw [hstep, (ih _).2, List.filterMap_cons, hp]
        simp

theorem suggestForUser_isSome (txns : List Transaction) (target : ℚ)
    (hd : ℤ) (limit : ℕ) (h : ∀ t ∈ txns, wellFormed t = true) :
    (suggestForUser txns target hd limit).isSome = true := by
  unfold suggestForUser
  simp only [suggest_likely_cash_expenses]
  by_cases hf : (sortByDateDesc (windowTxns
      (txns.filter (fun t => decide (t.transaction_type = TransactionType.debit)))
      (target - hd))).filter _is_cash_spend = []
  · rw [if_pos hf]
    rfl
  · rw [if_neg hf]
    have hwf : ((sortByDateDesc (windowTxns
        (txns.filter (fun t => decide (t.transaction_type = TransactionType.debit)))
        (target - hd))).filter _is_cash_spend).all wellFormed = true := by
      rw [List.all_eq_true]
      intro t ht
      have h1 := List.filter_subset' _ ht
      have h2 : t ∈ windowTxns
          (txns.filter (fun t => decide (t.transaction_type = TransactionType.debit)))
          (target - hd) := by
        unfold sortByDateDesc at h1
        exact mem_sortBy.mp h1
      have h3 : t ∈ txns := by
        unfold windowTxns at h2
        exact List.filter_subset' _ (List.filter_subset' _ h2)
      exact h t h3
    rw [if_pos hwf]
    rfl

/-- The withdrawal of the third scenario D user: eligible but below the
notification threshold. -/
def txnD3_withdrawal : Transaction :=
  ⟨some 500, .debit, .arr ["cash_withdrawal".toList], none, none, none, none, some 95⟩

def userD1 : UserRecord := ⟨uidA, txnsA⟩

def userD2 : UserRecord := ⟨"bob".toList, []⟩

def userD3 : UserRecord := ⟨"carol".toList, [txnD3_withdrawal]⟩

def usersD : List UserRecord := [userD1, userD2, userD3]

/-- A user whose processing raises: a classified withdrawal with no amount. -/
def userFail : UserRecord := ⟨"dave".toList, [txnMissingAmount]⟩

theorem processUserD1_isSome : (processUser userD1 100).isSome = true := by
  have hsugg := suggestForUser_isSome txnsA 100 90 4 (by decide)
  obtain ⟨sg, hsg⟩ := Option.isSome_iff_exists.mp hsugg
  simp only [processUser, userD1]
  rw [computeA_eval]
  have hgate : (posA.eligible_for_nudge &&
      decide (NUDGE_THRESHOLD ≤ posA.estimated_untracked_cash)) = true := by
    norm_num [posA, NUDGE_THRESHOLD]
  simp only [hgate, if_true, hsg]
  rfl

theorem processUserD2_none : processUser userD2 100 = none := by
  norm_num +decide [processUser, userD2, computeCashPositionForUser,
    compute_cash_position, windowTxns, sortByDateDesc, sortBy, insertBy, dateKey,
    sumAmounts, daysBetween, NUDGE_THRESHOLD, _is_cash_withdrawal, _is_cash_spend,
    _has_tag, _normalize_text, strip, lowerStr, hasSub, listStarts,
    _CASH_WITHDRAW_KEYWORDS, List.filter]

theorem processUserD3_none : processUser userD3 100 = none := by
  norm_num +decide [processUser, userD3, txnD3_withdrawal, computeCashPositionForUser,
    compute_cash_position, windowTxns, sortByDateDesc, sortBy, insertBy, dateKey,
    sumAmounts, daysBetween, NUDGE_THRESHOLD, _is_cash_withdrawal, _is_cash_spend,
    _has_tag, _normalize_text, strip, lowerStr, hasSub, listStarts,
    _CASH_WITHDRAW_KEYWORDS, List.filter]

theorem processUserFail_none : processUser userFail 100 = none := by
  norm_num +decide [processUser, userFail, txnMissingAmount, computeCashPositionForUser,
    compute_cash_position, windowTxns, sortByDateDesc, sortBy, insertBy, dateKey,
    sumAmounts, daysBetween, NUDGE_THRESHOLD, _is_cash_withdrawal, _is_cash_spend,
    _has_tag, _normalize_text, strip, lowerStr, hasSub, listStarts,
    _CASH_WITHDRAW_KEYWORDS, List.filter]

/-- C7: the nightly run creates one notification exactly for each user whose
cash position passes the batch gate (eligible_for_nudge and at least 1000
untracked) and whose processing raises no exception; over the three scenario
D users, of whom only the first clears both eligibility and the threshold,
exactly one notification is created. -/
theorem C7_notification_gate (users : List UserRecord) (now : ℚ) :
    (nightly_cash_check (Except.ok users) now).notifications_created =
      some (users.countP (fun u => qualifiesB u now)) ∧
    (nightly_cash_check (Except.ok users) now).notifications =
      users.filterMap (fun u => processUser u now) ∧
    (nightly_cash_check (Except.ok usersD) 100).notifications_created = some 1 := by
  refine ⟨?_, ?_, ?_⟩
  · show some (users.foldl (nightlyStep now) (0, [])).1 = _
    rw [(nightly_foldl_count now users (0, [])).1]
    rw [List.countP_congr (fun u _ => by rw [processUser_isSome_eq])]
    simp
  · show (users.foldl (nightlyStep now) (0, [])).2 = _
    rw [(nightly_foldl_count now users (0, [])).2]
    simp
  · show some (usersD.foldl (nightlyStep 100) (0, [])).1 = some 1
    rw [(nightly_foldl_count 100 usersD (0, [])).1]
    simp only [usersD, List.countP_cons, List.countP_nil, processUserD1_isSome,
      processUserD2_none, processUserD3_none]
    rfl

/-- C8: per user failures are isolated: the run over any user list reports
success; a user whose processing raises contributes nothing while the
remaining users are still processed; only a failure of the user listing
itself makes the run report failure with the error. -/
theorem C8_fault_isolation :
    (∀ (users : List UserRecord) (now : ℚ),
      (nightly_cash_check (Except.ok users) now).success = true) ∧
    (∀ (pre post : List UserRecord) (u : UserRecord) (now : ℚ),
      processUser u now = none →
      (nightly_cash_check (Except.ok (pre ++ u :: post)) now).notifications_created =
        (nightly_cash_check (Except.ok (pre ++ post)) now).notifications_created ∧
      (nightly_cash_check (Except.ok (pre ++ u :: post)) now).notifications =
        (nightly_cash_check (Except.ok (pre ++ post)) now).notifications) ∧
    (∀ (e : List Char) (now : ℚ),
      nightly_cash_check (Except.error e) now =
        { success := false, notifications_created := none, checked_at := none,
          error := some e, notifications := [] }) := by
  refine ⟨fun users now => rfl, ?_, fun e now => rfl⟩
  intro pre post u now hfail
  constructor
  · show some ((pre ++ u :: post).foldl (nightlyStep now) (0, [])).1 =
      some ((pre ++ post).foldl (nightlyStep now) (0, [])).1
    rw [(nightly_foldl_count now (pre ++ u :: post) (0, [])).1,
      (nightly_foldl_count now (pre ++ post) (0, [])).1]
    simp [List.countP_append, List.countP_cons, hfail]
  · show ((pre ++ u :: post).foldl (nightlyStep now) (0, [])).2 =
      ((pre ++ post).foldl (nightlyStep now) (0, [])).2
    rw [(nightly_foldl_count now (pre ++ u :: post) (0, [])).2,
      (nightly_foldl_count now (pre ++ post) (0, [])).2]
    simp [List.filterMap_append, List.filterMap_cons, hfail]

/-- C8 witness: a concrete failing user between two healthy users changes
nothing about the rest of the run. -/
theorem C8_witness :
    (nightly_cash_check (Except.ok ([userD1] ++ userFail :: [userD3])) 100).notifications_created =
      (nightly_cash_check (Except.ok ([userD1] ++ [userD3])) 100).notifications_created ∧
    (nightly_cash_check (Except.ok ([userD1] ++ userFail :: [userD3])) 100).notifications =
      (nightly_cash_check (Except.ok ([userD1] ++ [userD3])) 100).notifications :=
  C8_fault_isolation.2.1 [userD1] [userD3] userFail 100 processUserFail_none

end Finbuddy
